import Mathlib

/-!
Verification of the spaced-repetition scheduling core (`SRS` in
`spaced_repetition.py`).

Modelling conventions:
* calendar dates are integers (a day number); `today` is passed explicitly,
  since the Python code reads the clock at each operation;
* Python floats are modelled as exact rationals; Python's `round` (banker's
  rounding, ties to even) is `roundHalfEven`, and `round(x, 3)` is `round3`;
* the dict `db["problems"]` is a `List Entry` with dict-style update
  (`dictSet`: replace in place when the key is present, append otherwise),
  looked up by the `id` field;
* raising an exception is modelled by returning the unchanged collection
  together with the error (`record_review` returns `List Entry × Option Err`);
  mutation in the Python code happens only after the validations, so the
  collection component on the error path is the input collection.
-/

/-- Round a rational to the nearest integer, ties to the even integer
(the behaviour of Python's builtin `round`). -/
def roundHalfEven (q : ℚ) : ℤ :=
  if q - ⌊q⌋ < 1/2 then ⌊q⌋
  else if 1/2 < q - ⌊q⌋ then ⌊q⌋ + 1
  else if ⌊q⌋ % 2 = 0 then ⌊q⌋ else ⌊q⌋ + 1

/-- Python's `round(x, 3)`: round to 3 decimal places, ties to even. -/
def round3 (q : ℚ) : ℚ :=
  (roundHalfEven (q * 1000) : ℚ) / 1000

/-- One schedule record, the value stored under one key of
`db["problems"]`.  Field names follow the Python dict keys. -/
structure Entry where
  id : String
  difficulty : ℤ
  ef : ℚ
  reps : ℤ
  interval : ℤ
  last_review : Option ℤ
  next_review : Option ℤ
  notes : String
deriving DecidableEq, Repr

/-- Typed errors of the engine: `notFound` models the `KeyError`
(`NotFoundError`), `invalidArgument` the `ValueError`
(`InvalidArgumentError`). -/
inductive Err where
  | notFound
  | invalidArgument
deriving DecidableEq, Repr

namespace SRS

/-- Dict lookup `self.db["problems"].get(pid)`: first entry whose `id` is
`pid`. -/
def lookup (probs : List Entry) (pid : String) : Option Entry :=
  probs.find? (fun p => decide (p.id = pid))

/-- Dict assignment `probs[e.id] = e`: replace in place when the key is
present, append otherwise. -/
def dictSet (probs : List Entry) (e : Entry) : List Entry :=
  if probs.any (fun p => decide (p.id = e.id)) then
    probs.map (fun p => if p.id = e.id then e else p)
  else
    probs ++ [e]

/-- `SRS._make_entry`: fresh record for a newly added problem. -/
def _make_entry (pid : String) (diff today : ℤ) : Entry :=
  { id := pid
    difficulty := diff
    ef := max (13/10) (5/2 - (1/20) * ((diff : ℚ) - 3))
    reps := 0
    interval := 3
    last_review := none
    next_review := some (today + 3)
    notes := "" }

/-- The update applied by `SRS.add_solved` when `pid` is already present
(the reset path): `e.update({...})` with the fields written there. -/
def resetUpdate (e : Entry) (diff : ℤ) (notes : String) (today : ℤ) : Entry :=
  { e with
    difficulty := diff
    notes := if notes = "" then e.notes else notes
    ef := round3 (max (13/10) (e.ef - (1/50) * ((diff : ℚ) - 3)))
    reps := 0
    interval := 3
    next_review := some (today + 3) }

/-- `SRS.add_solved(pid, diff, notes)` at date `today`. -/
def add_solved (probs : List Entry) (pid : String) (diff : ℤ) (notes : String)
    (today : ℤ) : List Entry :=
  match lookup probs pid with
  | some e => dictSet probs (resetUpdate e diff notes today)
  | none => dictSet probs { _make_entry pid diff today with notes := notes }

/-- The new interval computed by `SRS.record_review`:
`reps, interval = 0, 3` on a lapse, otherwise `reps += 1` and
`interval = 10 if reps == 1 else max(1, round(prev_i * ef))`. -/
def reviewInterval (e : Entry) (q : ℤ) : ℤ :=
  if q < 3 then 3
  else if e.reps + 1 = 1 then 10
  else max 1 (roundHalfEven ((e.interval : ℚ) * e.ef))

/-- The record produced by a successful `SRS.record_review` call:
the `e.update({...})` block. -/
def reviewUpdate (e : Entry) (q today : ℤ) : Entry :=
  { e with
    ef := round3 (max (13/10)
      (e.ef + (1/10 - ((5 : ℚ) - (q : ℚ)) * (2/25 + ((5 : ℚ) - (q : ℚ)) * (1/50)))))
    reps := if q < 3 then 0 else e.reps + 1
    interval := reviewInterval e q
    last_review := some today
    next_review := some (today + reviewInterval e q) }

/-- `SRS.record_review(pid, q)` at date `today`.  The pair is the resulting
collection together with the raised error, if any; the validations precede
every mutation, so on the error path the collection is returned unchanged. -/
def record_review (probs : List Entry) (pid : String) (q today : ℤ) :
    List Entry × Option Err :=
  match lookup probs pid with
  | none => (probs, some Err.notFound)
  | some e =>
    if 0 ≤ q ∧ q ≤ 5 then
      (dictSet probs (reviewUpdate e q today), none)
    else
      (probs, some Err.invalidArgument)

/-- The filter of `SRS.get_due`: `not p.get("next_review") or
parse_iso(p["next_review"]) <= d`. -/
def isDue (d : ℤ) (p : Entry) : Bool :=
  match p.next_review with
  | none => true
  | some t => decide (t ≤ d)

/-- The sort order of `SRS.get_due`: ascending in the key
`(next_review or today, -difficulty)`, i.e. ascending `next_review`
(an absent date sorts as the reference date) with ties broken by
descending `difficulty`. -/
def dueKeyLe (d : ℤ) (a b : Entry) : Prop :=
  a.next_review.getD d < b.next_review.getD d ∨
    (a.next_review.getD d = b.next_review.getD d ∧ b.difficulty ≤ a.difficulty)

instance (d : ℤ) : DecidableRel (dueKeyLe d) := fun a b => by
  unfold dueKeyLe; infer_instance

instance (d : ℤ) : IsTotal Entry (dueKeyLe d) where
  total a b := by
    unfold dueKeyLe
    rcases lt_trichotomy (a.next_review.getD d) (b.next_review.getD d) with h | h | h
    · exact Or.inl (Or.inl h)
    · rcases le_total b.difficulty a.difficulty with hd | hd
      · exact Or.inl (Or.inr ⟨h, hd⟩)
      · exact Or.inr (Or.inr ⟨h.symm, hd⟩)
    · exact Or.inr (Or.inl h)

instance (d : ℤ) : IsTrans Entry (dueKeyLe d) where
  trans a b c hab hbc := by
    unfold dueKeyLe at *
    rcases hab with h1 | ⟨h1, h1d⟩ <;> rcases hbc with h2 | ⟨h2, h2d⟩
    · exact Or.inl (h1.trans h2)
    · exact Or.inl (h2 ▸ h1)
    · exact Or.inl (h1 ▸ h2)
    · exact Or.inr ⟨h1.trans h2, h2d.trans h1d⟩

/-- `SRS.get_due()` at reference date `d`: the due records sorted by the
key `(next_review or today, -difficulty)`.  Python's list sort is a stable
sort with respect to that key, modelled by `insertionSort`. -/
def get_due (probs : List Entry) (d : ℤ) : List Entry :=
  List.insertionSort (dueKeyLe d) (probs.filter (isDue d))

/-- The counters of `SRS.study_plan_summary`. -/
structure Counts where
  overdue : ℕ
  due_today : ℕ
  due_tomorrow : ℕ
  next_7_days : ℕ
  next_30_days : ℕ
  total : ℕ
deriving DecidableEq, Repr

/-- The loop body of `SRS.study_plan_summary`: every record increments
`total`, then is bucketed by its `next_review` through the `elif` chain. -/
def sps_step (d : ℤ) (c : Counts) (p : Entry) : Counts :=
  match p.next_review with
  | none => { c with total := c.total + 1, due_today := c.due_today + 1 }
  | some nr =>
    if nr < d then
      { c with
        total := c.total + 1
        overdue := c.overdue + 1
        due_today := c.due_today + 1 }
    else if nr = d then
      { c with total := c.total + 1, due_today := c.due_today + 1 }
    else if nr = d + 1 then
      { c with total := c.total + 1, due_tomorrow := c.due_tomorrow + 1 }
    else if d + 1 < nr ∧ nr ≤ d + 7 then
      { c with total := c.total + 1, next_7_days := c.next_7_days + 1 }
    else if d + 7 < nr ∧ nr ≤ d + 30 then
      { c with total := c.total + 1, next_30_days := c.next_30_days + 1 }
    else { c with total := c.total + 1 }

/-- `SRS.study_plan_summary()` at reference date `d`. -/
def study_plan_summary (probs : List Entry) (d : ℤ) : Counts :=
  probs.foldl (sps_step d) ⟨0, 0, 0, 0, 0, 0⟩

end SRS

/-- Spec-side predicate: a record is overdue (`next_review < refDate`). -/
def isOverdue (d : ℤ) (p : Entry) : Bool :=
  match p.next_review with
  | none => false
  | some t => decide (t < d)

/-- Spec-side predicate: a record counts in `due_today`
(`next_review` absent or `<= refDate`). -/
def isDueToday (d : ℤ) (p : Entry) : Bool :=
  match p.next_review with
  | none => true
  | some t => decide (t ≤ d)

/-- Spec-side predicate: `next_review == refDate + 1`. -/
def isDueTomorrow (d : ℤ) (p : Entry) : Bool :=
  match p.next_review with
  | none => false
  | some t => decide (t = d + 1)

/-- Spec-side predicate: `refDate+1 < next_review <= refDate+7`. -/
def isNext7 (d : ℤ) (p : Entry) : Bool :=
  match p.next_review with
  | none => false
  | some t => decide (d + 1 < t ∧ t ≤ d + 7)

/-- Spec-side predicate: `refDate+7 < next_review <= refDate+30`. -/
def isNext30 (d : ℤ) (p : Entry) : Bool :=
  match p.next_review with
  | none => false
  | some t => decide (d + 7 < t ∧ t ≤ d + 30)

/-- One operation of the engine, tagged with the calendar date at which it
runs (the Python code reads `today()` inside each call). -/
inductive Op where
  | add (pid : String) (diff : ℤ) (notes : String) (day : ℤ)
  | review (pid : String) (q : ℤ) (day : ℤ)

/-- Apply one operation to the collection, also maintaining, for each id,
the date of the most recent operation that successfully mutated its
record (a failed `record_review` mutates nothing). -/
def applyOp (s : List Entry × (String → Option ℤ)) (op : Op) :
    List Entry × (String → Option ℤ) :=
  match op with
  | Op.add pid diff notes day =>
      (SRS.add_solved s.1 pid diff notes day,
       fun x => if x = pid then some day else s.2 x)
  | Op.review pid q day =>
      match SRS.record_review s.1 pid q day with
      | (probs2, none) =>
          (probs2, fun x => if x = pid then some day else s.2 x)
      | (_, some _) => s

/-- Run a sequence of operations from the empty collection. -/
def applyOps (ops : List Op) : List Entry × (String → Option ℤ) :=
  ops.foldl applyOp ([], fun _ => none)

/-- A concrete record used by the closed witness statements. -/
def e0 : Entry :=
  { id := "P1", difficulty := 3, ef := 5/2, reps := 0, interval := 3,
    last_review := none, next_review := some 3, notes := "" }

/-- The invariant that actually holds of the engine: every record's
`next_review` is the date of the most recent operation that successfully
mutated it, plus its `interval`. -/
def TouchInv (s : List Entry × (String → Option ℤ)) : Prop :=
  ∀ pid e, SRS.lookup s.1 pid = some e →
    ∃ d, s.2 pid = some d ∧ e.next_review = some (d + e.interval)

/-! ### Rounding lemmas -/

theorem roundHalfEven_intCast (z : ℤ) : roundHalfEven (z : ℚ) = z := by
  norm_num [roundHalfEven]

theorem le_roundHalfEven {z : ℤ} {q : ℚ} (h : (z : ℚ) ≤ q) :
    z ≤ roundHalfEven q := by
  have hf : z ≤ ⌊q⌋ := Int.le_floor.mpr h
  unfold roundHalfEven
  split_ifs <;> omega

theorem roundHalfEven_le {z : ℤ} {q : ℚ} (h : q ≤ (z : ℚ)) :
    roundHalfEven q ≤ z := by
  have hf : ⌊q⌋ ≤ z := by
    have h2 := Int.floor_le_floor h
    simpa using h2
  have hfl : (⌊q⌋ : ℚ) ≤ q := Int.floor_le q
  unfold roundHalfEven
  split_ifs with h1 h2 h3
  · exact hf
  · have hlt : (⌊q⌋ : ℚ) < (z : ℚ) := by
      have hle := not_lt.mp h1
      linarith
    have : ⌊q⌋ < z := by exact_mod_cast hlt
    omega
  · exact hf
  · have hlt : (⌊q⌋ : ℚ) < (z : ℚ) := by
      have hle := not_lt.mp h1
      linarith
    have : ⌊q⌋ < z := by exact_mod_cast hlt
    omega

theorem le_round3 {q : ℚ} (h : 13/10 ≤ q) : 13/10 ≤ round3 q := by
  unfold round3
  have h1 : ((1300 : ℤ) : ℚ) ≤ q * 1000 := by push_cast; linarith
  have h2 : ((1300 : ℤ) : ℚ) ≤ (roundHalfEven (q * 1000) : ℚ) := by
    exact_mod_cast le_roundHalfEven h1
  push_cast at h2
  linarith

theorem round3_le {q : ℚ} (h : q ≤ 13/10) : round3 q ≤ 13/10 := by
  unfold round3
  have h1 : q * 1000 ≤ ((1300 : ℤ) : ℚ) := by push_cast; linarith
  have h2 : (roundHalfEven (q * 1000) : ℚ) ≤ ((1300 : ℤ) : ℚ) := by
    exact_mod_cast roundHalfEven_le h1
  push_cast at h2
  linarith

theorem round3_thirteen_tenths : round3 (13/10) = 13/10 := by
  unfold round3
  have h : (13/10 : ℚ) * 1000 = ((1300 : ℤ) : ℚ) := by norm_num
  rw [h, roundHalfEven_intCast]
  norm_num

theorem round3_max_comm (x : ℚ) :
    round3 (max (13/10) x) = max (13/10) (round3 x) := by
  rcases le_total x (13/10) with h | h
  · rw [max_eq_left h, round3_thirteen_tenths, max_eq_left (round3_le h)]
  · rw [max_eq_right h, max_eq_right (le_round3 h)]

/-! ### Collection lemmas -/

namespace SRS

theorem lookup_id {probs : List Entry} {pid : String} {e : Entry}
    (h : lookup probs pid = some e) : e.id = pid := by
  have h2 := List.find?_some h
  simpa using h2

theorem lookup_map_replace {probs : List Entry} {e : Entry}
    (h : probs.any (fun p => decide (p.id = e.id)) = true) :
    lookup (probs.map (fun p => if p.id = e.id then e else p)) e.id = some e := by
  induction probs with
  | nil => simp at h
  | cons p ps ih =>
    simp only [List.map_cons]
    by_cases hp : p.id = e.id
    · rw [if_pos hp]
      unfold lookup
      rw [List.find?_cons_of_pos]
      simp
    · rw [if_neg hp]
      unfold lookup at ih ⊢
      rw [List.find?_cons_of_neg]
      · apply ih
        simpa [List.any_cons, hp] using h
      · simp [hp]

theorem lookup_map_replace_other {probs : List Entry} {e : Entry} {x : String}
    (hx : ¬ x = e.id) :
    lookup (probs.map (fun p => if p.id = e.id then e else p)) x
      = lookup probs x := by
  induction probs with
  | nil => rfl
  | cons p ps ih =>
    simp only [List.map_cons]
    by_cases hp : p.id = e.id
    · rw [if_pos hp]
      have hex : ¬ (e.id = x) := fun hh => hx hh.symm
      have hpx : ¬ (p.id = x) := by rw [hp]; exact hex
      unfold lookup at ih ⊢
      rw [List.find?_cons_of_neg, List.find?_cons_of_neg]
      · exact ih
      · simp [hpx]
      · simp [hex]
    · rw [if_neg hp]
      by_cases hpx : p.id = x
      · unfold lookup
        rw [List.find?_cons_of_pos, List.find?_cons_of_pos] <;> simp [hpx]
      · unfold lookup at ih ⊢
        rw [List.find?_cons_of_neg, List.find?_cons_of_neg]
        · exact ih
        · simp [hpx]
        · simp [hpx]

theorem lookup_dictSet_self (probs : List Entry) (e : Entry) :
    lookup (dictSet probs e) e.id = some e := by
  unfold dictSet
  split_ifs with h
  · exact lookup_map_replace h
  · have hnone : lookup probs e.id = none := by
      unfold lookup
      rw [List.find?_eq_none]
      intro p hp
      simp only [List.any_eq_true] at h
      simp only [decide_eq_true_eq]
      intro hpe
      exact h ⟨p, hp, by simp [hpe]⟩
    unfold lookup at hnone ⊢
    rw [List.find?_append, hnone]
    simp

theorem lookup_dictSet_other (probs : List Entry) (e : Entry) {x : String}
    (hx : ¬ x = e.id) :
    lookup (dictSet probs e) x = lookup probs x := by
  unfold dictSet
  split_ifs with h
  · exact lookup_map_replace_other hx
  · unfold lookup
    rw [List.find?_append]
    have hex : ¬ (e.id = x) := fun hh => hx hh.symm
    have : List.find? (fun p => decide (p.id = x)) [e] = none := by
      simp [List.find?, hex]
    rw [this]
    simp

end SRS

/-! ### Engine lemmas -/

namespace SRS

theorem record_review_eq_ok {probs : List Entry} {pid : String} {q today : ℤ}
    {e : Entry} (he : lookup probs pid = some e) (hq : 0 ≤ q ∧ q ≤ 5) :
    record_review probs pid q today
      = (dictSet probs (reviewUpdate e q today), none) := by
  simp only [record_review, he, if_pos hq]

theorem lookup_record_review {probs : List Entry} {pid : String} {q today : ℤ}
    {e : Entry} (he : lookup probs pid = some e) (hq : 0 ≤ q ∧ q ≤ 5) :
    lookup (record_review probs pid q today).1 pid
      = some (reviewUpdate e q today) := by
  rw [record_review_eq_ok he hq]
  have hid : (reviewUpdate e q today).id = pid := by
    simpa [reviewUpdate] using lookup_id he
  rw [← hid]
  exact lookup_dictSet_self probs _

theorem lookup_record_review_other {probs : List Entry} {pid x : String}
    {q today : ℤ} (hx : ¬ x = pid) :
    lookup (record_review probs pid q today).1 x = lookup probs x := by
  unfold record_review
  cases hl : lookup probs pid with
  | none => rfl
  | some e =>
    split_ifs with hq
    · have hid : (reviewUpdate e q today).id = pid := by
        simpa [reviewUpdate] using lookup_id hl
      exact lookup_dictSet_other probs _ (hid ▸ hx)
    · rfl

theorem record_review_ok_inv {probs probs2 : List Entry} {pid : String}
    {q today : ℤ} (h : record_review probs pid q today = (probs2, none)) :
    ∃ e, lookup probs pid = some e ∧ (0 ≤ q ∧ q ≤ 5) ∧
      probs2 = dictSet probs (reviewUpdate e q today) := by
  unfold record_review at h
  cases hl : lookup probs pid with
  | none => rw [hl] at h; simp at h
  | some e =>
    rw [hl] at h
    split_ifs at h with hq
    · refine ⟨e, rfl, hq, ?_⟩
      have h2 := congrArg Prod.fst h
      exact h2.symm
    · simp at h

theorem add_solved_absent_eq {probs : List Entry} {pid : String}
    {diff today : ℤ} {notes : String} (h : lookup probs pid = none) :
    add_solved probs pid diff notes today
      = dictSet probs { _make_entry pid diff today with notes := notes } := by
  simp only [add_solved, h]

theorem add_solved_present_eq {probs : List Entry} {pid : String}
    {diff today : ℤ} {notes : String} {e : Entry} (h : lookup probs pid = some e) :
    add_solved probs pid diff notes today
      = dictSet probs (resetUpdate e diff notes today) := by
  simp only [add_solved, h]

theorem lookup_add_solved_absent {probs : List Entry} {pid : String}
    {diff today : ℤ} {notes : String} (h : lookup probs pid = none) :
    lookup (add_solved probs pid diff notes today) pid
      = some { _make_entry pid diff today with notes := notes } := by
  rw [add_solved_absent_eq h]
  have hid : ({ _make_entry pid diff today with notes := notes } : Entry).id = pid := rfl
  rw [← hid]
  exact lookup_dictSet_self probs _

theorem lookup_add_solved_present {probs : List Entry} {pid : String}
    {diff today : ℤ} {notes : String} {e : Entry} (h : lookup probs pid = some e) :
    lookup (add_solved probs pid diff notes today) pid
      = some (resetUpdate e diff notes today) := by
  rw [add_solved_present_eq h]
  have hid : (resetUpdate e diff notes today).id = pid := by
    simpa [resetUpdate] using lookup_id h
  rw [← hid]
  exact lookup_dictSet_self probs _

theorem lookup_add_solved_other {probs : List Entry} {pid x : String}
    {diff today : ℤ} {notes : String} (hx : ¬ x = pid) :
    lookup (add_solved probs pid diff notes today) x = lookup probs x := by
  unfold add_solved
  cases hl : lookup probs pid with
  | none =>
    have hid : ({ _make_entry pid diff today with notes := notes } : Entry).id = pid := rfl
    exact lookup_dictSet_other probs _ (hid ▸ hx)
  | some e =>
    have hid : (resetUpdate e diff notes today).id = pid := by
      simpa [resetUpdate] using lookup_id hl
    exact lookup_dictSet_other probs _ (hid ▸ hx)

end SRS

/-! ### The invariant of operation sequences -/

theorem touchInv_applyOp {s : List Entry × (String → Option ℤ)}
    (h : TouchInv s) (op : Op) : TouchInv (applyOp s op) := by
  cases op with
  | add pid diff notes day =>
    intro x e hx
    simp only [applyOp] at hx ⊢
    by_cases hxe : x = pid
    · subst hxe
      refine ⟨day, by simp, ?_⟩
      cases hl : SRS.lookup s.1 x with
      | none =>
        rw [SRS.lookup_add_solved_absent hl] at hx
        cases hx
        rfl
      | some e1 =>
        rw [SRS.lookup_add_solved_present hl] at hx
        cases hx
        rfl
    · rw [SRS.lookup_add_solved_other hxe] at hx
      obtain ⟨d, hd, hnr⟩ := h x e hx
      exact ⟨d, by simp [hxe, hd], hnr⟩
  | review pid q day =>
    cases hr : SRS.record_review s.1 pid q day with
    | mk probs2 err =>
      cases err with
      | none =>
        intro x e hx
        simp only [applyOp, hr] at hx ⊢
        obtain ⟨e1, he1, hq, hp2⟩ := SRS.record_review_ok_inv hr
        by_cases hxe : x = pid
        · subst hxe
          refine ⟨day, by simp, ?_⟩
          have hlook : SRS.lookup probs2 x = some (SRS.reviewUpdate e1 q day) := by
            have := @SRS.lookup_record_review s.1 x q day e1 he1 hq
            rw [hr] at this
            exact this
          rw [hlook] at hx
          cases hx
          rfl
        · have hlook : SRS.lookup probs2 x = SRS.lookup s.1 x := by
            have := @SRS.lookup_record_review_other s.1 pid x q day hxe
            rw [hr] at this
            exact this
          rw [hlook] at hx
          obtain ⟨d, hd, hnr⟩ := h x e hx
          exact ⟨d, by simp [hxe, hd], hnr⟩
      | some er =>
        intro x e hx
        simp only [applyOp, hr] at hx ⊢
        exact h x e hx

theorem touchInv_foldl (ops : List Op) :
    ∀ s : List Entry × (String → Option ℤ), TouchInv s →
      TouchInv (ops.foldl applyOp s) := by
  induction ops with
  | nil => exact fun s h => h
  | cons op ops ih =>
    intro s h
    exact ih _ (touchInv_applyOp h op)

theorem touchInv_applyOps (ops : List Op) : TouchInv (applyOps ops) := by
  unfold applyOps
  apply touchInv_foldl
  intro pid e h
  simp [SRS.lookup, List.find?] at h

/-! ### Summary counting lemma -/

theorem sps_foldl (d : ℤ) (probs : List Entry) : ∀ c : SRS.Counts,
    probs.foldl (SRS.sps_step d) c =
      { overdue := c.overdue + probs.countP (isOverdue d)
        due_today := c.due_today + probs.countP (isDueToday d)
        due_tomorrow := c.due_tomorrow + probs.countP (isDueTomorrow d)
        next_7_days := c.next_7_days + probs.countP (isNext7 d)
        next_30_days := c.next_30_days + probs.countP (isNext30 d)
        total := c.total + probs.length } := by
  induction probs with
  | nil => intro c; simp
  | cons p ps ih =>
    intro c
    rw [List.foldl_cons, ih (SRS.sps_step d c p)]
    cases hnr : p.next_review with
    | none =>
      simp only [SRS.sps_step, hnr, List.countP_cons, isOverdue, isDueToday,
        isDueTomorrow, isNext7, isNext30, List.length_cons, SRS.Counts.mk.injEq]
      simp
      omega
    | some nr =>
      simp only [SRS.sps_step, hnr, List.countP_cons, isOverdue, isDueToday,
        isDueTomorrow, isNext7, isNext30, List.length_cons,
        decide_eq_true_eq, SRS.Counts.mk.injEq]
      split_ifs <;> simp_all <;> omega

/-! ### Claim theorems -/

/-- Claim C1: for every record present in the collection and every integer
quality q with 3 <= q <= 5, record_review increments repetitions by 1; if
the new repetitions count equals 1 the new interval is 10, otherwise it is
max(1, round(prev_interval * ef)) with the ease factor read before this
review's ease adjustment and ties at .5 rounded to even; last_review is set
to today and next_review to today + interval_days. -/
theorem recordReview_success_updates (probs : List Entry) (pid : String)
    (q today : ℤ) (e : Entry) (he : SRS.lookup probs pid = some e)
    (h3 : 3 ≤ q) (h5 : q ≤ 5) :
    ∃ e2 : Entry,
      (SRS.record_review probs pid q today).2 = none ∧
      SRS.lookup (SRS.record_review probs pid q today).1 pid = some e2 ∧
      e2.reps = e.reps + 1 ∧
      e2.interval =
        (if e.reps + 1 = 1 then 10
         else max 1 (roundHalfEven ((e.interval : ℚ) * e.ef))) ∧
      e2.last_review = some today ∧
      e2.next_review = some (today + e2.interval) := by
  have hq : 0 ≤ q ∧ q ≤ 5 := ⟨by omega, h5⟩
  have hnl : ¬ q < 3 := by omega
  refine ⟨SRS.reviewUpdate e q today, ?_, SRS.lookup_record_review he hq,
    ?_, ?_, rfl, rfl⟩
  · rw [SRS.record_review_eq_ok he hq]
  · simp [SRS.reviewUpdate, hnl]
  · simp [SRS.reviewUpdate, SRS.reviewInterval, hnl]

/-- Witness for claim C1: a concrete successful review with quality 5. -/
theorem recordReview_success_updates_witness :
    SRS.lookup [e0] "P1" = some e0 ∧ ((3:ℤ) ≤ 5 ∧ (5:ℤ) ≤ 5) ∧
    (∃ e2 : Entry,
      (SRS.record_review [e0] "P1" 5 0).2 = none ∧
      SRS.lookup (SRS.record_review [e0] "P1" 5 0).1 "P1" = some e2 ∧
      e2.reps = e0.reps + 1 ∧
      e2.interval =
        (if e0.reps + 1 = 1 then 10
         else max 1 (roundHalfEven ((e0.interval : ℚ) * e0.ef))) ∧
      e2.last_review = some 0 ∧
      e2.next_review = some (0 + e2.interval)) :=
  ⟨rfl, ⟨by decide, by decide⟩,
   recordReview_success_updates [e0] "P1" 5 0 e0 rfl (by decide)
     (by decide)⟩

/-- Claim C2: for every record present in the collection and every integer
quality q with 0 <= q < 3, record_review sets repetitions to 0 and
interval_days to 3 regardless of prior state, and next_review to
today + 3 days. -/
theorem recordReview_lapse_resets (probs : List Entry) (pid : String)
    (q today : ℤ) (e : Entry) (he : SRS.lookup probs pid = some e)
    (h0 : 0 ≤ q) (h3 : q < 3) :
    ∃ e2 : Entry,
      (SRS.record_review probs pid q today).2 = none ∧
      SRS.lookup (SRS.record_review probs pid q today).1 pid = some e2 ∧
      e2.reps = 0 ∧ e2.interval = 3 ∧ e2.next_review = some (today + 3) := by
  have hq : 0 ≤ q ∧ q ≤ 5 := ⟨h0, by omega⟩
  refine ⟨SRS.reviewUpdate e q today, ?_, SRS.lookup_record_review he hq,
    ?_, ?_, ?_⟩
  · rw [SRS.record_review_eq_ok he hq]
  · simp [SRS.reviewUpdate, h3]
  · simp [SRS.reviewUpdate, SRS.reviewInterval, h3]
  · simp [SRS.reviewUpdate, SRS.reviewInterval, h3]

/-- Witness for claim C2: a concrete lapsed review with quality 1. -/
theorem recordReview_lapse_resets_witness :
    SRS.lookup [e0] "P1" = some e0 ∧ ((0:ℤ) ≤ 1 ∧ (1:ℤ) < 3) ∧
    (∃ e2 : Entry,
      (SRS.record_review [e0] "P1" 1 0).2 = none ∧
      SRS.lookup (SRS.record_review [e0] "P1" 1 0).1 "P1" = some e2 ∧
      e2.reps = 0 ∧ e2.interval = 3 ∧ e2.next_review = some (0 + 3)) :=
  ⟨rfl, ⟨by decide, by decide⟩,
   recordReview_lapse_resets [e0] "P1" 1 0 e0 rfl (by decide)
     (by decide)⟩

/-- Claim C3: for every record and every integer quality q in [0,5],
record_review sets the new ease factor to
max(1.3, ef + (0.1 - (5-q)*(0.08 + (5-q)*0.02))) rounded to 3 decimal
places, with ef the ease factor before the review; the result is always
at least 1.3. -/
theorem recordReview_ef_update (probs : List Entry) (pid : String)
    (q today : ℤ) (e : Entry) (he : SRS.lookup probs pid = some e)
    (h0 : 0 ≤ q) (h5 : q ≤ 5) :
    ∃ e2 : Entry,
      (SRS.record_review probs pid q today).2 = none ∧
      SRS.lookup (SRS.record_review probs pid q today).1 pid = some e2 ∧
      e2.ef = round3 (max (13/10)
        (e.ef + (1/10 - ((5 : ℚ) - (q : ℚ)) * (2/25 + ((5 : ℚ) - (q : ℚ)) * (1/50))))) ∧
      13/10 ≤ e2.ef := by
  have hq : 0 ≤ q ∧ q ≤ 5 := ⟨h0, h5⟩
  refine ⟨SRS.reviewUpdate e q today, ?_, SRS.lookup_record_review he hq,
    rfl, ?_⟩
  · rw [SRS.record_review_eq_ok he hq]
  · exact le_round3 (le_max_left _ _)

/-- Witness for claim C3: a concrete review with quality 0 (the largest
downward ease adjustment, still floored at 1.3). -/
theorem recordReview_ef_update_witness :
    SRS.lookup [e0] "P1" = some e0 ∧ ((0:ℤ) ≤ 0 ∧ (0:ℤ) ≤ 5) ∧
    (∃ e2 : Entry,
      (SRS.record_review [e0] "P1" 0 0).2 = none ∧
      SRS.lookup (SRS.record_review [e0] "P1" 0 0).1 "P1" = some e2 ∧
      e2.ef = round3 (max (13/10)
        (e0.ef + (1/10 - ((5 : ℚ) - ((0:ℤ) : ℚ)) * (2/25 + ((5 : ℚ) - ((0:ℤ) : ℚ)) * (1/50))))) ∧
      13/10 ≤ e2.ef) :=
  ⟨rfl, ⟨by decide, by decide⟩,
   recordReview_ef_update [e0] "P1" 0 0 e0 rfl (by decide)
     (by decide)⟩

/-- Claim C4: record_review fails with NotFoundError exactly when the id is
absent, fails with InvalidArgumentError exactly when the id is present and
the quality lies outside [0,5], and in every failing case the collection
(hence the record) is left unchanged. -/
theorem recordReview_error_conditions (probs : List Entry) (pid : String)
    (q today : ℤ) :
    ((SRS.record_review probs pid q today).2 = some Err.notFound ↔
      SRS.lookup probs pid = none) ∧
    ((SRS.record_review probs pid q today).2 = some Err.invalidArgument ↔
      (∃ e, SRS.lookup probs pid = some e) ∧ ¬ (0 ≤ q ∧ q ≤ 5)) ∧
    ((SRS.record_review probs pid q today).1 = probs ∨
      (SRS.record_review probs pid q today).2 = none) := by
  unfold SRS.record_review
  cases hl : SRS.lookup probs pid with
  | none => simp
  | some e =>
    by_cases hq : 0 ≤ q ∧ q ≤ 5
    · simp [hq]
    · simp [hq]

/-- Claim C10: record_review validates the id before the quality: on an
absent id it fails with NotFoundError for every quality value, including
values outside [0,5]. -/
theorem recordReview_id_checked_first (probs : List Entry) (pid : String)
    (q today : ℤ) (h : SRS.lookup probs pid = none) :
    SRS.record_review probs pid q today = (probs, some Err.notFound) := by
  simp only [SRS.record_review, h]

/-- Witness for claim C10: an unknown id together with the wildly invalid
quality 99 still reports NotFoundError. -/
theorem recordReview_id_checked_first_witness :
    SRS.lookup [e0] "Q9" = none ∧
    SRS.record_review [e0] "Q9" 99 0 = ([e0], some Err.notFound) :=
  ⟨rfl, recordReview_id_checked_first [e0] "Q9" 99 0 rfl⟩

/-- Claim C5: for every id not already in the collection and every integer
difficulty d, add_solved inserts a record with
ease_factor = max(1.3, 2.5 - 0.05*(d-3)), repetitions = 0,
interval_days = 3, last_review absent, next_review = today + 3 days and
the given notes; with difficulty 3 the ease factor is 2.5. -/
theorem addSolved_new_record (probs : List Entry) (pid : String) (diff : ℤ)
    (notes : String) (today : ℤ) (h : SRS.lookup probs pid = none) :
    ∃ e2 : Entry,
      SRS.lookup (SRS.add_solved probs pid diff notes today) pid = some e2 ∧
      e2.ef = max (13/10) (5/2 - (1/20) * ((diff : ℚ) - 3)) ∧
      e2.reps = 0 ∧ e2.interval = 3 ∧ e2.last_review = none ∧
      e2.next_review = some (today + 3) ∧ e2.notes = notes ∧
      (diff = 3 → e2.ef = 5/2) := by
  refine ⟨_, SRS.lookup_add_solved_absent h, rfl, rfl, rfl, rfl, rfl, rfl, ?_⟩
  intro h3
  subst h3
  show max (13/10) (5/2 - (1/20) * (((3:ℤ) : ℚ) - 3)) = 5/2
  have hx : (5/2 : ℚ) - (1/20) * (((3:ℤ) : ℚ) - 3) = 5/2 := by push_cast; ring
  rw [hx, max_eq_right (by norm_num : (13:ℚ)/10 ≤ 5/2)]

/-- Witness for claim C5: adding "P1" with difficulty 3 to the empty
collection. -/
theorem addSolved_new_record_witness :
    SRS.lookup [] "P1" = none ∧
    (∃ e2 : Entry,
      SRS.lookup (SRS.add_solved [] "P1" 3 "hi" 0) "P1" = some e2 ∧
      e2.ef = max (13/10) (5/2 - (1/20) * (((3:ℤ) : ℚ) - 3)) ∧
      e2.reps = 0 ∧ e2.interval = 3 ∧ e2.last_review = none ∧
      e2.next_review = some (0 + 3) ∧ e2.notes = "hi" ∧
      ((3:ℤ) = 3 → e2.ef = 5/2)) :=
  ⟨rfl, addSolved_new_record [] "P1" 3 "hi" 0 rfl⟩

/-- Claim C6: for every id already in the collection, add_solved preserves
the id, leaves last_review untouched, replaces difficulty, replaces notes
only when the new notes are non-empty, sets
ease_factor = max(1.3, round3(old_ef - 0.02*(d-3))), repetitions = 0,
interval_days = 3 and next_review = today + 3 days. -/
theorem addSolved_reset_record (probs : List Entry) (pid : String) (diff : ℤ)
    (notes : String) (today : ℤ) (e : Entry) (h : SRS.lookup probs pid = some e) :
    ∃ e2 : Entry,
      SRS.lookup (SRS.add_solved probs pid diff notes today) pid = some e2 ∧
      e2.id = e.id ∧ e2.last_review = e.last_review ∧ e2.difficulty = diff ∧
      e2.notes = (if notes = "" then e.notes else notes) ∧
      e2.ef = max (13/10) (round3 (e.ef - (1/50) * ((diff : ℚ) - 3))) ∧
      e2.reps = 0 ∧ e2.interval = 3 ∧ e2.next_review = some (today + 3) := by
  refine ⟨_, SRS.lookup_add_solved_present h, rfl, rfl, rfl, rfl, ?_, rfl, rfl, rfl⟩
  show round3 (max (13/10) (e.ef - (1/50) * ((diff : ℚ) - 3)))
      = max (13/10) (round3 (e.ef - (1/50) * ((diff : ℚ) - 3)))
  exact round3_max_comm _

/-- Witness for claim C6: resetting "P1" with difficulty 5 and empty notes
on day 7. -/
theorem addSolved_reset_record_witness :
    SRS.lookup [e0] "P1" = some e0 ∧
    (∃ e2 : Entry,
      SRS.lookup (SRS.add_solved [e0] "P1" 5 "" 7) "P1" = some e2 ∧
      e2.id = e0.id ∧ e2.last_review = e0.last_review ∧ e2.difficulty = 5 ∧
      e2.notes = (if "" = "" then e0.notes else "") ∧
      e2.ef = max (13/10) (round3 (e0.ef - (1/50) * (((5:ℤ) : ℚ) - 3))) ∧
      e2.reps = 0 ∧ e2.interval = 3 ∧ e2.next_review = some (7 + 3)) :=
  ⟨rfl, addSolved_reset_record [e0] "P1" 5 "" 7 e0 rfl⟩

/-- Claim C7: get_due returns exactly the records whose next_review is
absent or at most the reference date, sorted ascending by next_review
(absent sorting as the reference date) with ties broken by descending
difficulty. -/
theorem getDue_spec (probs : List Entry) (d : ℤ) :
    (SRS.get_due probs d).Perm (probs.filter (SRS.isDue d)) ∧
    (∀ e : Entry, e ∈ SRS.get_due probs d ↔ e ∈ probs ∧ SRS.isDue d e = true) ∧
    List.Sorted (SRS.dueKeyLe d) (SRS.get_due probs d) := by
  refine ⟨List.perm_insertionSort _ _, ?_, List.sorted_insertionSort _ _⟩
  intro e
  unfold SRS.get_due
  rw [(List.perm_insertionSort (SRS.dueKeyLe d) _).mem_iff, List.mem_filter]

/-- Claim C8: study_plan_summary counts every record into total, records
with next_review < refDate into both overdue and due_today, records due at
refDate (or with absent next_review) into due_today, refDate+1 into
due_tomorrow, (refDate+1, refDate+7] into next_7_days and
(refDate+7, refDate+30] into next_30_days; a single record due yesterday
yields overdue=1, due_today=1, total=1. -/
theorem studyPlanSummary_buckets (probs : List Entry) (d : ℤ) :
    SRS.study_plan_summary probs d =
      { overdue := probs.countP (isOverdue d)
        due_today := probs.countP (isDueToday d)
        due_tomorrow := probs.countP (isDueTomorrow d)
        next_7_days := probs.countP (isNext7 d)
        next_30_days := probs.countP (isNext30 d)
        total := probs.length } ∧
    ((SRS.study_plan_summary [{ e0 with next_review := some (-1) }] 0).overdue = 1 ∧
     (SRS.study_plan_summary [{ e0 with next_review := some (-1) }] 0).due_today = 1 ∧
     (SRS.study_plan_summary [{ e0 with next_review := some (-1) }] 0).total = 1) := by
  constructor
  · unfold SRS.study_plan_summary
    rw [sps_foldl]
    simp
  · exact ⟨rfl, rfl, rfl⟩

/-- Counterexample to claim C9 as stated: create "P1" on day 0, review it
with quality 5 on day 0 (setting last_review = 0), then reset it via
add_solved on day 5; the record then has last_review = 0, interval = 3 and
next_review = 8, violating next_review == last_review + interval_days. -/
theorem nextReview_lastReview_counterexample :
    ∃ e : Entry,
      SRS.lookup (applyOps
        [Op.add "P1" 3 "" 0, Op.review "P1" 5 0, Op.add "P1" 3 "" 5]).1
        "P1" = some e ∧
      e.last_review = some 0 ∧ e.interval = 3 ∧ e.next_review = some 8 ∧
      ¬ e.next_review = some (0 + e.interval) := by
  refine ⟨_, rfl, rfl, rfl, rfl, by decide⟩

/-- Claim C9 (amended): after any sequence of operations, every record
satisfies next_review == touch + interval_days, where touch is the date of
the most recent operation that successfully mutated the record; the
spec's equality next_review == last_review + interval_days holds only when
last_review coincides with that date, and a reset on a later date breaks
it. -/
theorem nextReview_touch_invariant (ops : List Op) (pid : String) (e : Entry)
    (h : SRS.lookup (applyOps ops).1 pid = some e) :
    ∃ d : ℤ, (applyOps ops).2 pid = some d ∧
      e.next_review = some (d + e.interval) :=
  touchInv_applyOps ops pid e h

/-- Witness for the amended claim C9: a single add of "P1" on day 0. -/
theorem nextReview_touch_invariant_witness :
    SRS.lookup (applyOps [Op.add "P1" 3 "" 0]).1 "P1"
      = some { SRS._make_entry "P1" 3 0 with notes := "" } ∧
    (∃ d : ℤ, (applyOps [Op.add "P1" 3 "" 0]).2 "P1" = some d ∧
      ({ SRS._make_entry "P1" 3 0 with notes := "" } : Entry).next_review
        = some (d + ({ SRS._make_entry "P1" 3 0 with notes := "" } : Entry).interval)) :=
  ⟨rfl, nextReview_touch_invariant [Op.add "P1" 3 "" 0] "P1" _ rfl⟩
